import Mathlib

/-!
# Verification of the tencent-cls docker log-driver core pipeline

Shallow embedding of the buffering/batching delivery pipeline of the
`docker-log-driver-tencent-cls` repository (`logger.go`): partial-record
reassembly (`partialLogBuffer`), template-based message formatting
(`messageFormatter` over `fasttemplate`), the bounded queue with its two
backpressure policies (`enqueue` over a Go channel), the batching state
machine (`runBatching`), and the shutdown/drain protocol (`Close`).

Go strings are modelled at the Unicode-scalar level as `List Char`
(`utf8.RuneCountInString` is then `List.length`; the only byte-level
operation the code performs on a buffer, comparing the final byte with
`'\n'`, coincides with comparing the final scalar because `'\n'` is ASCII
and UTF-8 continuation bytes are never ASCII).  Go maps are modelled as
association lists, Go channels as a list of pending values plus a capacity
and a closed flag, and a send on a closed channel is modelled as the Go
runtime panic it causes.
-/

namespace TencentCLS

/-- A Go string / []byte at Unicode-scalar granularity. -/
abbrev Str := List Char

/-! ## Data model: log messages (docker's `logger.Message`) -/

/-- `backend.PartialLogMetaData`: the fragment metadata of a partial log
message.  Only the fields `ID` and `Last` are read by the driver
(`Ordinal` is never consulted), so only those are modelled. -/
structure PLogMetaData where
  id : String
  last : Bool
deriving Repr, DecidableEq

/-- `logger.Message`: the fields the driver reads — `Line`, `Timestamp`
(opaque instant) and `PLogMetaData` (present exactly on fragmented
records). -/
structure Message where
  line : Str
  timestamp : Nat
  plogMetaData : Option PLogMetaData
deriving Repr, DecidableEq

/-! ## Go map operations (association-list model) -/

/-- Go map read `m[k]` with its `ok` flag: `some v` iff the key is present. -/
def mapLookup (m : List (String × Message)) (k : String) : Option Message :=
  match m with
  | [] => none
  | (k', v) :: rest => if k' = k then some v else mapLookup rest k

/-- Go map write `m[k] = v`: replaces the binding if present, else adds it. -/
def mapInsert (m : List (String × Message)) (k : String) (v : Message) :
    List (String × Message) :=
  match m with
  | [] => [(k, v)]
  | (k', v') :: rest =>
      if k' = k then (k, v) :: rest else (k', v') :: mapInsert rest k v

/-- Go map `delete(m, k)`. -/
def mapErase (m : List (String × Message)) (k : String) :
    List (String × Message) :=
  match m with
  | [] => []
  | (k', v') :: rest =>
      if k' = k then mapErase rest k else (k', v') :: mapErase rest k

theorem mapLookup_mapInsert_self (m : List (String × Message)) (k : String)
    (v : Message) : mapLookup (mapInsert m k v) k = some v := by
  induction m with
  | nil => simp [mapInsert, mapLookup]
  | cons hd tl ih =>
      obtain ⟨k', v'⟩ := hd
      by_cases hk : k' = k
      · simp [mapInsert, hk, mapLookup]
      · simp [mapInsert, hk, mapLookup, ih]

theorem mapErase_mapInsert (m : List (String × Message)) (k : String)
    (v : Message) : mapErase (mapInsert m k v) k = mapErase m k := by
  induction m with
  | nil => simp [mapInsert, mapErase]
  | cons hd tl ih =>
      obtain ⟨k', v'⟩ := hd
      by_cases hk : k' = k
      · simp [mapInsert, hk, mapErase]
      · simp [mapInsert, hk, mapErase, ih]

theorem mapErase_of_lookup_none (m : List (String × Message)) (k : String)
    (h : mapLookup m k = none) : mapErase m k = m := by
  induction m with
  | nil => simp [mapErase]
  | cons hd tl ih =>
      obtain ⟨k', v'⟩ := hd
      by_cases hk : k' = k
      · simp [mapLookup, hk] at h
      · simp [mapLookup, hk] at h
        simp [mapErase, hk, ih h]

/-! ## Fragment reassembler: `partialLogBuffer` -/

/-- The state of `partialLogBuffer`: its `logs` map from fragment-group ID
to the in-flight accumulated message (the mutex is irrelevant in this
sequential model). -/
abbrev PLogBuffer := List (String × Message)

/-- `partialLogBuffer.Append`.  `none` models the
`panic("log must be partial")` taken when the record carries no fragment
metadata; otherwise the result is the updated map, the assembled message
(on a terminal fragment) and the `last` flag.  The pointer stored in the Go
map is modelled by writing the mutated message back into the map before the
terminal-fragment check. -/
def PLogBuffer.Append (b : PLogBuffer) (log : Message) :
    Option (PLogBuffer × Option Message × Bool) :=
  match log.plogMetaData with
  | none => none
  | some meta =>
      let found := mapLookup b meta.id
      let plog : Message :=
        match found with
        | some p => p
        | none => { log with line := [], plogMetaData := none }
      let b1 : PLogBuffer :=
        match found with
        | some _ => b
        | none => mapInsert b meta.id plog
      let plog' : Message := { plog with line := plog.line ++ log.line }
      let b2 := mapInsert b1 meta.id plog'
      if meta.last then some (mapErase b2 meta.id, some plog', true)
      else some (b2, none, false)

/-- Sequential submission of a list of records to `Append`, collecting the
`(assembled, isComplete)` results; `none` if any call panics. -/
def runAppends (b : PLogBuffer) (msgs : List Message) :
    Option (PLogBuffer × List (Option Message × Bool)) :=
  match msgs with
  | [] => some (b, [])
  | m :: rest =>
      match b.Append m with
      | none => none
      | some (b', out, last) =>
          match runAppends b' rest with
          | none => none
          | some (b'', outs) => some (b'', (out, last) :: outs)

/-- The fragment records of one group: every fragment carries the group ID,
and exactly the final one has `last = true`. -/
def mkFrags (gid : String) : List (Str × Nat) → List Message
  | [] => []
  | [(p, t)] => [⟨p, t, some ⟨gid, true⟩⟩]
  | (p, t) :: rest => ⟨p, t, some ⟨gid, false⟩⟩ :: mkFrags gid rest

/-- Processing the remaining fragments of a group whose assembly entry is
already present: every non-terminal fragment reports `(none, false)`, the
terminal one reports the accumulated message and removes the entry. -/
theorem runAppends_cont (gid : String) (frags : List (Str × Nat)) :
    ∀ (b : PLogBuffer) (plog : Message), frags ≠ [] →
      mapLookup b gid = some plog →
      runAppends b (mkFrags gid frags) =
        some (mapErase b gid,
          List.replicate (frags.length - 1) ((none : Option Message), false) ++
            [(some { plog with line := plog.line ++ (frags.map Prod.fst).flatten },
              true)]) := by
  induction frags with
  | nil => intro b plog h _; exact absurd rfl h
  | cons hd tl ih =>
      obtain ⟨p, t⟩ := hd
      intro b plog _ hlook
      cases tl with
      | nil =>
          simp [mkFrags, runAppends, PLogBuffer.Append, hlook, mapErase_mapInsert]
      | cons q rest =>
          have hne : q :: rest ≠ [] := by simp
          have hstep :
              runAppends b (mkFrags gid ((p, t) :: q :: rest)) =
                runAppends b
                  (⟨p, t, some ⟨gid, false⟩⟩ :: mkFrags gid (q :: rest)) := rfl
          rw [hstep]
          have happ :
              PLogBuffer.Append b ⟨p, t, some ⟨gid, false⟩⟩ =
                some (mapInsert b gid { plog with line := plog.line ++ p },
                  none, false) := by
            simp [PLogBuffer.Append, hlook]
          have hrec := ih (mapInsert b gid { plog with line := plog.line ++ p })
            { plog with line := plog.line ++ p } hne
            (mapLookup_mapInsert_self b gid _)
          simp only [runAppends, happ, hrec, mapErase_mapInsert]
          simp [List.replicate_succ, List.append_assoc]

/-- C4: for a sequence of fragments of one fresh group submitted in order
with the terminal fragment last, every non-terminal `Append` returns
`(none, false)`, the terminal `Append` returns — exactly once — the
assembled message whose line is the concatenation of all fragment payloads
with fragment metadata cleared, and the group's assembly state is removed
(the buffer returns to its initial contents). -/
theorem C4_reassembly_complete (gid : String) (frags : List (Str × Nat))
    (b₀ : PLogBuffer) (hne : frags ≠ []) (hfresh : mapLookup b₀ gid = none) :
    ∃ m : Message,
      runAppends b₀ (mkFrags gid frags) =
        some (b₀,
          List.replicate (frags.length - 1) ((none : Option Message), false) ++
            [(some m, true)]) ∧
      m.line = (frags.map Prod.fst).flatten ∧
      m.plogMetaData = none := by
  cases frags with
  | nil => exact absurd rfl hne
  | cons hd tl =>
      obtain ⟨p, t⟩ := hd
      cases tl with
      | nil =>
          refine ⟨⟨p, t, none⟩, ?_, by simp, rfl⟩
          simp [mkFrags, runAppends, PLogBuffer.Append, hfresh,
            mapErase_mapInsert, mapErase_of_lookup_none b₀ gid hfresh]
      | cons q rest =>
          have hne' : q :: rest ≠ [] := by simp
          have happ :
              PLogBuffer.Append b₀ ⟨p, t, some ⟨gid, false⟩⟩ =
                some (mapInsert (mapInsert b₀ gid ⟨[], t, none⟩) gid
                  ⟨p, t, none⟩, none, false) := by
            simp [PLogBuffer.Append, hfresh]
          have hrec := runAppends_cont gid (q :: rest)
            (mapInsert (mapInsert b₀ gid ⟨[], t, none⟩) gid ⟨p, t, none⟩)
            ⟨p, t, none⟩ hne' (mapLookup_mapInsert_self _ gid _)
          refine ⟨⟨p ++ ((q :: rest).map Prod.fst).flatten, t, none⟩, ?_, by simp, rfl⟩
          have hmk : mkFrags gid ((p, t) :: q :: rest) =
              ⟨p, t, some ⟨gid, false⟩⟩ :: mkFrags gid (q :: rest) := rfl
          rw [hmk]
          simp only [runAppends, happ, hrec, mapErase_mapInsert,
            mapErase_of_lookup_none b₀ gid hfresh]
          simp [List.replicate_succ]

/-- Witness for C4 at a concrete input: group `"g"`, fragments `"ab"` and
(terminal) `"c"` against an empty buffer. -/
theorem C4_reassembly_complete_witness :
    ∃ m : Message,
      runAppends [] (mkFrags "g" [("ab".toList, 0), ("c".toList, 1)]) =
        some ([],
          List.replicate 1 ((none : Option Message), false) ++ [(some m, true)]) ∧
      m.line = "abc".toList ∧ m.plogMetaData = none := by
  obtain ⟨m, h1, h2, h3⟩ :=
    C4_reassembly_complete "g" [("ab".toList, 0), ("c".toList, 1)] []
      (by simp) rfl
  exact ⟨m, h1, by simpa using h2, h3⟩

/-- C9: `partialLogBuffer.Append` panics exactly on records that carry no
fragment metadata; a record with fragment metadata present never panics. -/
theorem C9_append_panics_iff_no_fragment_meta (b : PLogBuffer) (log : Message) :
    PLogBuffer.Append b log = none ↔ log.plogMetaData = none := by
  cases h : log.plogMetaData with
  | none => simp [PLogBuffer.Append, h]
  | some meta =>
      simp only [PLogBuffer.Append, h]
      constructor
      · intro hc
        split at hc <;> simp_all
      · intro hc
        exact absurd hc (by simp)

/-! ## Batching state machine (`runBatching`) -/

/-- The delivery worker's batching state: the `batch` buffer contents and
the running `batchRuneCount` (a Go `int`). -/
structure BatchState where
  batch : Str
  batchRuneCount : Int
deriving Repr, DecidableEq

/-- The `flush` closure of `runBatching`: a no-op on an empty batch,
otherwise strip one trailing `'\n'` (decrementing the rune count), send the
buffer contents, and reset batch and counter.  The second component is the
payload handed to `l.send`, `none` when no send happens. -/
def flush (s : BatchState) : BatchState × Option Str :=
  if s.batch.length = 0 then (s, none)
  else
    let s1 : BatchState :=
      if s.batch.getLast? = some '\n' then
        ⟨s.batch.dropLast, s.batchRuneCount - 1⟩
      else s
    (⟨[], 0⟩, some s1.batch)

/-- The `add` closure of `runBatching`: append the message plus the `'\n'`
separator, add `RuneCount(log) + 1` to the counter, and flush when the
counter reaches `maxLogMessageChars`. -/
def add (maxLogMessageChars : Int) (s : BatchState) (log : Str) :
    BatchState × Option Str :=
  let logLength : Int := (log.length : Int) + 1
  let s1 : BatchState := ⟨s.batch ++ log ++ ['\n'], s.batchRuneCount + logLength⟩
  if s1.batchRuneCount ≥ maxLogMessageChars then flush s1
  else (s1, none)

/-- `add` applied to each message of a list in order, collecting every
payload sent to the sink. -/
def addAll (maxLogMessageChars : Int) (s : BatchState) (logs : List Str) :
    BatchState × List Str :=
  match logs with
  | [] => (s, [])
  | x :: xs =>
      let r1 := add maxLogMessageChars s x
      let r2 := addAll maxLogMessageChars r1.1 xs
      (r2.1, r1.2.toList ++ r2.2)

/-- The exit path of `runBatching` when the worker returns — in particular
when it returns through the `<-l.closed` select case while messages are
still buffered.  Go runs deferred calls in LIFO order, so of
`defer drain()` followed by `defer flush()` the `flush` runs first and the
`drain` (which `add`s every message still in the buffer channel) runs
after it; whatever the drain leaves in the batch is dropped when the
worker terminates.  The result is the list of payloads sent to the sink,
paired with the batch contents discarded at termination. -/
def runBatchingExit (maxLogMessageChars : Int) (s : BatchState)
    (buffered : List Str) : List Str × Str :=
  let r1 := flush s
  let r2 := addAll maxLogMessageChars r1.1 buffered
  (r1.2.toList ++ r2.2, r2.1.batch)

/-- C6: in batching mode with maximum message length 10, the messages
`"12345"` then `"67890"` trigger exactly one size-driven flush whose sink
payload is `"12345\n67890"` (trailing separator stripped), after which the
batch and its rune counter are reset to empty; and a flush on an empty
batch makes no call to the sink. -/
theorem C6_batch_flush_by_size :
    addAll 10 ⟨[], 0⟩ ["12345".toList, "67890".toList] =
      (⟨[], 0⟩, ["12345\n67890".toList]) ∧
    flush ⟨[], 0⟩ = (⟨[], 0⟩, none) := by
  constructor
  · rfl
  · rfl

/-- C1 (failing input): with the default maximum message length 4096, a
single message `"a"` accepted into the buffer but still undelivered when
the worker observes the close signal is never sent: the deferred `flush`
runs on the then-empty batch (no-op) before the deferred `drain` moves
`"a"` into the batch, and no flush follows, so the worker terminates with
`"a\n"` still in the batch and the sink receives nothing — contradicting
the claim that every accepted message is delivered before `Close` returns
via one final flush after the channel is exhausted. -/
theorem C1_drain_on_close_loses_buffered_message :
    (runBatchingExit 4096 ⟨[], 0⟩ [['a']]).1 = [] ∧
    (runBatchingExit 4096 ⟨[], 0⟩ [['a']]).2 = ['a', '\n'] := by
  constructor
  · rfl
  · rfl

/-! ## Message formatter (`messageFormatter` over `fasttemplate`) -/

/-- A parsed template segment: literal text or a `\x7btag\x7d` placeholder. -/
inductive Seg
  | lit (s : Str)
  | tag (t : Str)
deriving Repr, DecidableEq

/-- The scanning loop of `fasttemplate.NewTemplate(template, "\x7b",
"\x7d")`, one character at a time: outside a tag, text up to the next start
tag becomes a literal segment; after a start tag, text up to the matching
end tag becomes the tag name; a start tag whose end tag never follows is
the construction error `Cannot find end tag` (`none`).  `acc` holds the
current chunk in reverse. -/
def parseGo (inTag : Bool) (acc : Str) : Str → Option (List Seg)
  | [] => if inTag then none else some [.lit acc.reverse]
  | x :: xs =>
      if inTag then
        if x = '\x7d' then
          match parseGo false [] xs with
          | none => none
          | some segs => some (.tag acc.reverse :: segs)
        else parseGo true (x :: acc) xs
      else
        if x = '\x7b' then
          match parseGo true [] xs with
          | none => none
          | some segs => some (.lit acc.reverse :: segs)
        else parseGo false (x :: acc) xs

/-- `fasttemplate.NewTemplate(template, "\x7b", "\x7d")`: the template as
alternating literal and tag segments, or `none` on a missing end tag. -/
def parseTemplate (s : Str) : Option (List Seg) := parseGo false [] s

/-- The host-supplied static container context (external collaborator).
`ID()`, `Name()`, `ImageID()` and `ImageName()` are helper methods of the
host's `ContainerDetails` (derived short forms of the identifiers); only
their values reach the formatter, so they are modelled as given fields. -/
structure ContainerDetails where
  shortID : Str
  containerID : Str
  name : Str
  shortImageID : Str
  containerImageID : Str
  imageName : Str
  daemonName : Str
deriving Repr, DecidableEq

/-- `msg.Timestamp.UTC().Format(time.RFC3339)`: the rendering is the time
library's (external); the claims depend only on it being a total function
of the instant, so the instant's decimal form stands in for it. -/
def rfc3339 (t : Nat) : Str := Nat.toDigits 10 t

/-- The possible construction/formatting errors: `fasttemplate`'s missing
end tag, and the driver's `errUnknownTag`. -/
inductive FmtError
  | unclosedTag
  | unknownTag (t : Str)
deriving Repr, DecidableEq

/-- Lookup in the static attribute mapping (a Go map read). -/
def attrLookup (m : List (Str × Str)) (k : Str) : Option Str :=
  match m with
  | [] => none
  | (k', v) :: rest => if k' = k then some v else attrLookup rest k

/-- `messageFormatter.tagFunc`: resolve the built-in tags from the record
and the container context, fall back to the static attribute mapping, and
fail with the unknown-tag error otherwise. -/
def tagFunc (d : ContainerDetails) (attrs : List (Str × Str)) (msg : Message)
    (tag : Str) : Except FmtError Str :=
  if tag = "log".toList then .ok msg.line
  else if tag = "timestamp".toList then .ok (rfc3339 msg.timestamp)
  else if tag = "container_id".toList then .ok d.shortID
  else if tag = "container_full_id".toList then .ok d.containerID
  else if tag = "container_name".toList then .ok d.name
  else if tag = "image_id".toList then .ok d.shortImageID
  else if tag = "image_full_id".toList then .ok d.containerImageID
  else if tag = "image_name".toList then .ok d.imageName
  else if tag = "daemon_name".toList then .ok d.daemonName
  else
    match attrLookup attrs tag with
    | some v => .ok v
    | none => .error (.unknownTag tag)

/-- `Template.ExecuteFuncStringWithErr`: substitute every tag via `f`,
stopping at the first error. -/
def executeFunc (f : Str → Except FmtError Str) : List Seg → Except FmtError Str
  | [] => .ok []
  | .lit s :: rest =>
      match executeFunc f rest with
      | .error e => .error e
      | .ok r => .ok (s ++ r)
  | .tag t :: rest =>
      match f t with
      | .error e => .error e
      | .ok v =>
          match executeFunc f rest with
          | .error e => .error e
          | .ok r => .ok (v ++ r)

/-- `messageFormatter`: the parsed template plus the static context. -/
structure Formatter where
  segs : List Seg
  containerDetails : ContainerDetails
  attrs : List (Str × Str)
deriving Repr, DecidableEq

/-- The synthetic record used by `validateTemplate`. -/
def validateMsg : Message := ⟨"validate".toList, 0, none⟩

/-- `newMessageFormatter`: parse the template, then run the dry-run
substitution of `validateTemplate` against the synthetic record, failing
construction on a parse error or an unknown tag. -/
def newMessageFormatter (d : ContainerDetails) (attrs : List (Str × Str))
    (template : Str) : Except FmtError Formatter :=
  match parseTemplate template with
  | none => .error .unclosedTag
  | some segs =>
      match executeFunc (tagFunc d attrs validateMsg) segs with
      | .error e => .error e
      | .ok _ => .ok ⟨segs, d, attrs⟩

/-- `messageFormatter.Format` (via `ExecuteFuncString`, which panics on a
substitution error — represented by the `.error` result). -/
def Formatter.Format (f : Formatter) (msg : Message) : Except FmtError Str :=
  executeFunc (tagFunc f.containerDetails f.attrs msg) f.segs

/-- A tag `tagFunc` can resolve: a built-in or a static attribute key. -/
def knownTag (attrs : List (Str × Str)) (t : Str) : Bool :=
  t = "log".toList ∨ t = "timestamp".toList ∨ t = "container_id".toList ∨
    t = "container_full_id".toList ∨ t = "container_name".toList ∨
    t = "image_id".toList ∨ t = "image_full_id".toList ∨
    t = "image_name".toList ∨ t = "daemon_name".toList ∨
    (attrLookup attrs t).isSome

theorem tagFunc_of_known (d : ContainerDetails) (attrs : List (Str × Str))
    (msg : Message) (t : Str) (h : knownTag attrs t = true) :
    ∃ v, tagFunc d attrs msg t = .ok v := by
  simp only [knownTag, Bool.decide_or, Bool.or_eq_true, decide_eq_true_eq] at h
  simp only [tagFunc]
  split_ifs with h1 h2 h3 h4 h5 h6 h7 h8 h9
  · exact ⟨_, rfl⟩
  · exact ⟨_, rfl⟩
  · exact ⟨_, rfl⟩
  · exact ⟨_, rfl⟩
  · exact ⟨_, rfl⟩
  · exact ⟨_, rfl⟩
  · exact ⟨_, rfl⟩
  · exact ⟨_, rfl⟩
  · exact ⟨_, rfl⟩
  · have : (attrLookup attrs t).isSome := by tauto
    obtain ⟨v, hv⟩ := Option.isSome_iff_exists.mp this
    exact ⟨v, by rw [hv]⟩

theorem tagFunc_of_unknown (d : ContainerDetails) (attrs : List (Str × Str))
    (msg : Message) (t : Str) (h : knownTag attrs t = false) :
    tagFunc d attrs msg t = .error (.unknownTag t) := by
  simp only [knownTag, Bool.decide_or, Bool.or_eq_false_iff,
    decide_eq_false_iff_not] at h
  obtain ⟨h1, h2, h3, h4, h5, h6, h7, h8, h9, h10⟩ := h
  simp only [tagFunc, if_neg h1, if_neg h2, if_neg h3, if_neg h4, if_neg h5,
    if_neg h6, if_neg h7, if_neg h8, if_neg h9]
  cases ha : attrLookup attrs t with
  | none => rfl
  | some v => rw [ha] at h10; simp at h10

/-- The dry run succeeds exactly when every tag of the template resolves. -/
theorem executeFunc_ok_iff (d : ContainerDetails) (attrs : List (Str × Str))
    (msg : Message) (segs : List Seg) :
    (∃ out, executeFunc (tagFunc d attrs msg) segs = .ok out) ↔
      ∀ t, Seg.tag t ∈ segs → knownTag attrs t = true := by
  induction segs with
  | nil => simp [executeFunc]
  | cons hd tl ih =>
      cases hd with
      | lit s =>
          constructor
          · intro ⟨out, hout⟩ t ht
            simp only [executeFunc] at hout
            cases hrec : executeFunc (tagFunc d attrs msg) tl with
            | error e => rw [hrec] at hout; cases hout
            | ok r =>
                have := ih.mp ⟨r, hrec⟩
                simp only [List.mem_cons] at ht
                rcases ht with ht | ht
                · cases ht
                · exact this t ht
          · intro hall
            obtain ⟨r, hr⟩ := ih.mpr (fun t ht => hall t (List.mem_cons_of_mem _ ht))
            exact ⟨s ++ r, by simp only [executeFunc, hr]⟩
      | tag t0 =>
          constructor
          · intro ⟨out, hout⟩ t ht
            simp only [executeFunc] at hout
            cases hf : tagFunc d attrs msg t0 with
            | error e => rw [hf] at hout; cases hout
            | ok v =>
                rw [hf] at hout
                cases hrec : executeFunc (tagFunc d attrs msg) tl with
                | error e => rw [hrec] at hout; cases hout
                | ok r =>
                    simp only [List.mem_cons] at ht
                    rcases ht with ht | ht
                    · cases ht
                      by_contra hk
                      rw [tagFunc_of_unknown d attrs msg t0
                        (Bool.not_eq_true _ ▸ hk)] at hf
                      cases hf
                    · exact (ih.mp ⟨r, hrec⟩) t ht
          · intro hall
            obtain ⟨v, hv⟩ := tagFunc_of_known d attrs msg t0
              (hall t0 (List.mem_cons_self _ _))
            obtain ⟨r, hr⟩ := ih.mpr (fun t ht => hall t (List.mem_cons_of_mem _ ht))
            exact ⟨v ++ r, by simp only [executeFunc, hv, hr]⟩

/-- A failed dry run always reports an unknown tag of the template. -/
theorem executeFunc_error_shape (d : ContainerDetails)
    (attrs : List (Str × Str)) (msg : Message) :
    ∀ (segs : List Seg) (e : FmtError),
      executeFunc (tagFunc d attrs msg) segs = .error e →
      ∃ t, e = .unknownTag t ∧ Seg.tag t ∈ segs ∧ knownTag attrs t = false := by
  intro segs
  induction segs with
  | nil => intro e he; simp [executeFunc] at he
  | cons hd tl ih =>
      intro e he
      cases hd with
      | lit s =>
          simp only [executeFunc] at he
          cases hrec : executeFunc (tagFunc d attrs msg) tl with
          | error e' =>
              rw [hrec] at he
              cases he
              obtain ⟨t, h1, h2, h3⟩ := ih _ hrec
              exact ⟨t, h1, List.mem_cons_of_mem _ h2, h3⟩
          | ok r => rw [hrec] at he; cases he
      | tag t0 =>
          simp only [executeFunc] at he
          cases hf : tagFunc d attrs msg t0 with
          | error e' =>
              rw [hf] at he
              cases he
              cases hk : knownTag attrs t0 with
              | false =>
                  rw [tagFunc_of_unknown d attrs msg t0 hk] at hf
                  cases hf
                  exact ⟨t0, rfl, List.mem_cons_self _ _, hk⟩
              | true =>
                  obtain ⟨v, hv⟩ := tagFunc_of_known d attrs msg t0 hk
                  rw [hv] at hf; cases hf
          | ok v =>
              rw [hf] at he
              cases hrec : executeFunc (tagFunc d attrs msg) tl with
              | error e' =>
                  rw [hrec] at he
                  cases he
                  obtain ⟨t, h1, h2, h3⟩ := ih _ hrec
                  exact ⟨t, h1, List.mem_cons_of_mem _ h2, h3⟩
              | ok r => rw [hrec] at he; cases he

/-- C7: construction fails with the unknown-tag error whenever the template
contains a tag that is neither built-in nor a static attribute key (the
dry-run substitution of `validateTemplate` runs at construction), and a
successfully constructed formatter's `Format` never encounters an unknown
tag on any record. -/
theorem C7_validation_catches_unknown_tags :
    (∀ (d : ContainerDetails) (attrs : List (Str × Str)) (template : Str)
        (segs : List Seg) (t : Str),
        parseTemplate template = some segs → Seg.tag t ∈ segs →
        knownTag attrs t = false →
        ∃ t', knownTag attrs t' = false ∧
          newMessageFormatter d attrs template = .error (.unknownTag t')) ∧
    (∀ (d : ContainerDetails) (attrs : List (Str × Str)) (template : Str)
        (f : Formatter) (msg : Message),
        newMessageFormatter d attrs template = .ok f →
        ∃ out, f.Format msg = .ok out) := by
  constructor
  · intro d attrs template segs t hparse hmem hunk
    have hnotall : ¬ ∀ t', Seg.tag t' ∈ segs → knownTag attrs t' = true := by
      intro hall
      rw [hall t hmem] at hunk
      cases hunk
    cases hex : executeFunc (tagFunc d attrs validateMsg) segs with
    | ok out =>
        exact absurd ((executeFunc_ok_iff d attrs validateMsg segs).mp ⟨out, hex⟩)
          hnotall
    | error e =>
        obtain ⟨t', h1, _, h3⟩ := executeFunc_error_shape d attrs validateMsg
          segs e hex
        refine ⟨t', h3, ?_⟩
        simp only [newMessageFormatter, hparse, hex, h1]
  · intro d attrs template f msg hok
    cases hparse : parseTemplate template with
    | none =>
        simp only [newMessageFormatter, hparse] at hok
        exact Except.noConfusion hok
    | some segs =>
        cases hex : executeFunc (tagFunc d attrs validateMsg) segs with
        | error e =>
            simp only [newMessageFormatter, hparse, hex] at hok
            exact Except.noConfusion hok
        | ok out =>
            simp only [newMessageFormatter, hparse, hex] at hok
            cases hok
            have hall := (executeFunc_ok_iff d attrs validateMsg segs).mp
              ⟨out, hex⟩
            exact (executeFunc_ok_iff d attrs msg segs).mpr hall

/-- Witness for C7: the template `"\x7bnope\x7d"` with empty attributes is
rejected with an unknown-tag error, and a formatter built from
`"\x7blog\x7d"` formats an arbitrary record without error. -/
theorem C7_validation_catches_unknown_tags_witness :
    (∃ t', knownTag [] t' = false ∧
        newMessageFormatter ⟨[], [], [], [], [], [], []⟩ [] "{nope}".toList =
          .error (.unknownTag t')) ∧
    (∃ out,
        Formatter.Format
            ⟨[.lit [], .tag "log".toList, .lit []], ⟨[], [], [], [], [], [], []⟩, []⟩
            ⟨"hello".toList, 3, none⟩ = .ok out) := by
  constructor
  · exact C7_validation_catches_unknown_tags.1 ⟨[], [], [], [], [], [], []⟩ []
      ("{nope}".toList) [.lit [], .tag "nope".toList, .lit []] ("nope".toList)
      (by decide) (by decide) (by decide)
  · exact C7_validation_catches_unknown_tags.2 ⟨[], [], [], [], [], [], []⟩ []
      ("{log}".toList)
      ⟨[.lit [], .tag "log".toList, .lit []], ⟨[], [], [], [], [], [], []⟩, []⟩
      ⟨"hello".toList, 3, none⟩ rfl

/-! ## The logger: state, backpressure queue, `Log`, `Close` -/

/-- A Go `chan string`: the pending values in FIFO order, the capacity, and
whether the channel has been closed. -/
structure Chan where
  buf : List Str
  cap : Nat
  closed : Bool
deriving Repr, DecidableEq

/-- The reads `loggerConfig` gets from the driver options; only the fields
`TencentCLSLogger` consults are modelled (`MaxBufferSize` is a Go `int64`,
`FilterRegex` an optional compiled pattern used solely through `Match`). -/
structure LoggerConfig where
  batchEnabled : Bool
  maxBufferSize : Int
  filterRegex : Option (Str → Bool)

/-- `TencentCLSLogger`: the mutable state the claims concern.  The `closed`
signal channel and the `buffer` channel are distinct (`isClosed` reads the
former, sends target the latter); `Close` closes both together under the
mutex, so the bounded enqueue path always observes them equal. -/
structure TencentCLSLogger where
  cfg : LoggerConfig
  maxLogMessageChars : Int
  buffer : Chan
  closedSig : Bool
  plogs : PLogBuffer
  formatter : Formatter

/-- `isClosed`: a non-blocking receive on the `closed` signal channel. -/
def TencentCLSLogger.isClosed (l : TencentCLSLogger) : Bool := l.closedSig

/-- `WithBufferCapacity`: replaces the buffer channel only for a positive
capacity. -/
def WithBufferCapacity (capacity : Int) (l : TencentCLSLogger) :
    TencentCLSLogger :=
  if capacity > 0 then { l with buffer := ⟨[], capacity.toNat, false⟩ } else l

/-- `WithMaxLogMessageChars`: sets the field unconditionally — no
validation of the argument (contrast `WithBufferCapacity`'s positivity
guard). -/
def WithMaxLogMessageChars (maxLen : Int) (l : TencentCLSLogger) :
    TencentCLSLogger :=
  { l with maxLogMessageChars := maxLen }

/-- The outcome of one `enqueue` call. -/
inductive EnqueueResult
  | ok
  | errLoggerClosed
  | errAfterDrop
  | panicked
deriving Repr, DecidableEq

/-- `enqueue`.  With `MaxBufferSize <= 0` it is the bare blocking send
`l.buffer <- log`: a panic if the buffer channel is closed, otherwise the
message joins the FIFO of accepted messages once the worker receives it.
Otherwise it is the guarded select: when the logger is closed both the
send case (a send on a closed channel proceeds by panicking) and the
`<-l.closed` case are ready and Go chooses between them pseudo-randomly —
the `oracle` argument resolves that choice (`true` picks the send case).
On a full open buffer the `default` branch drops the oldest element (a
no-op if the buffer is empty) and retries the non-blocking insert once. -/
def enqueue (oracle : Bool) (l : TencentCLSLogger) (log : Str) :
    TencentCLSLogger × EnqueueResult :=
  if l.cfg.maxBufferSize ≤ 0 then
    if l.buffer.closed then (l, .panicked)
    else ({ l with buffer := { l.buffer with buf := l.buffer.buf ++ [log] } }, .ok)
  else
    if l.buffer.closed || l.closedSig then
      if oracle then (l, .panicked) else (l, .errLoggerClosed)
    else if l.buffer.buf.length < l.buffer.cap then
      ({ l with buffer := { l.buffer with buf := l.buffer.buf ++ [log] } }, .ok)
    else
      let b1 : Chan := { l.buffer with buf := l.buffer.buf.tail }
      if b1.buf.length < b1.cap then
        ({ l with buffer := { b1 with buf := b1.buf ++ [log] } }, .ok)
      else ({ l with buffer := b1 }, .errAfterDrop)

/-- The rune-splitting loop of `Log`, with one unit of fuel per iteration.
`none` means the loop has not finished within the fuel: with
`maxLogMessageChars = 0` the slice expressions leave `runes` untouched on
every iteration (an infinite loop), and with a negative bound the Go slice
expression `runes[:end]` panics — either way `Log` never returns, which
`none` represents. -/
def splitEnd (maxLogMessageChars : Int) (len : Nat) : Int :=
  if (len : Int) < maxLogMessageChars then (len : Int) else maxLogMessageChars

def splitLoop (maxLogMessageChars : Int) : Nat → Str → Option (List Str)
  | _, [] => some []
  | 0, _ :: _ => none
  | fuel + 1, x :: xs =>
      match splitLoop maxLogMessageChars fuel
          ((x :: xs).drop (splitEnd maxLogMessageChars (x :: xs).length).toNat) with
      | some cs =>
          some ((x :: xs).take (splitEnd maxLogMessageChars (x :: xs).length).toNat
            :: cs)
      | none => none

/-- The outcome of one `Log` call. -/
inductive LogOutcome
  | ok
  | errLoggerClosed
  | errAfterDrop
  | panicked
  | diverges
deriving Repr, DecidableEq

/-- The error an `enqueue` result propagates out of `Log`. -/
def EnqueueResult.toLogOutcome : EnqueueResult → LogOutcome
  | .ok => .ok
  | .errLoggerClosed => .errLoggerClosed
  | .errAfterDrop => .errAfterDrop
  | .panicked => .panicked

/-- The per-chunk enqueue loop of `Log`: stop at the first failing call. -/
def enqueueAll (oracle : Bool) (l : TencentCLSLogger) :
    List Str → TencentCLSLogger × EnqueueResult
  | [] => (l, .ok)
  | x :: xs =>
      match enqueue oracle l x with
      | (l', .ok) => enqueueAll oracle l' xs
      | (l', r) => (l', r)

/-- The filter step: `l.cfg.FilterRegex != nil && !l.cfg.FilterRegex.Match(log.Line)`
drops the record; `filterKeeps` is true when the record survives. -/
def filterKeeps : Option (Str → Bool) → Str → Bool
  | some p, line => p line
  | none, _ => true

/-- `Log` after the closed check and reassembly: regex filter, formatting
(`ExecuteFuncString` panics on a substitution error), the
maximum-message-length split — applied whenever the formatted text exceeds
`maxLogMessageChars`, with no consultation of the batching mode — and the
enqueue of every piece. -/
def logRest (oracle : Bool) (l : TencentCLSLogger) (msg : Message) :
    TencentCLSLogger × LogOutcome :=
  if filterKeeps l.cfg.filterRegex msg.line = false then (l, .ok)
  else
    match l.formatter.Format msg with
    | .error _ => (l, .panicked)
    | .ok text =>
        if (text.length : Int) > l.maxLogMessageChars then
          match splitLoop l.maxLogMessageChars text.length text with
          | none => (l, .diverges)
          | some chunks =>
              let r := enqueueAll oracle l chunks
              (r.1, r.2.toLogOutcome)
        else
          let r := enqueue oracle l text
          (r.1, r.2.toLogOutcome)

/-- `Log`: reject when closed, reassemble fragmented records (returning
`nil` on a non-terminal fragment), then filter/format/split/enqueue. -/
def Log (oracle : Bool) (l : TencentCLSLogger) (msg : Message) :
    TencentCLSLogger × LogOutcome :=
  if l.isClosed then (l, .errLoggerClosed)
  else
    match msg.plogMetaData with
    | some _ =>
        match PLogBuffer.Append l.plogs msg with
        | none => (l, .panicked)
        | some (b', assembled, last) =>
            let l1 := { l with plogs := b' }
            if last then
              match assembled with
              | some m => logRest oracle l1 m
              | none => (l1, .panicked)
            else (l1, .ok)
    | none => logRest oracle l msg

/-- `close(ch)` on a channel's closed flag: panics (`none`) if the channel
is already closed. -/
def chanCloseFlag (closed : Bool) : Option Bool :=
  if closed then none else some true

/-- `Close`: under the mutex, return `nil` at once if already closed,
otherwise close the `closed` signal channel and the buffer channel and wait
for the worker (whose drain is modelled separately by `runBatchingExit`).
The Go return value is always `nil`; `none` here would be the double-close
panic, which the `isClosed` guard prevents. -/
def Close (l : TencentCLSLogger) : Option TencentCLSLogger :=
  if l.isClosed then some l
  else
    match chanCloseFlag l.closedSig, chanCloseFlag l.buffer.closed with
    | some c1, some c2 =>
        some { l with closedSig := c1, buffer := { l.buffer with closed := c2 } }
    | _, _ => none

/-- With a positive bound, fuel equal to the rune count suffices for the
splitting loop, and the chunks it produces partition the text into pieces
of at most the bound. -/
theorem splitLoop_spec (maxChars : Int) (hmax : 1 ≤ maxChars) :
    ∀ (fuel : Nat) (runes : Str), runes.length ≤ fuel →
      ∃ cs, splitLoop maxChars fuel runes = some cs ∧
        cs.flatten = runes ∧ ∀ c ∈ cs, (c.length : Int) ≤ maxChars := by
  intro fuel
  induction fuel with
  | zero =>
      intro runes h
      cases runes with
      | nil => exact ⟨[], rfl, rfl, by simp⟩
      | cons x xs => simp at h
  | succ n ih =>
      intro runes h
      cases runes with
      | nil => exact ⟨[], rfl, rfl, by simp⟩
      | cons x xs =>
          have he1 : 1 ≤ splitEnd maxChars (x :: xs).length := by
            unfold splitEnd
            split
            · simp
            · exact hmax
          have hele : splitEnd maxChars (x :: xs).length ≤ maxChars := by
            unfold splitEnd
            split
            · omega
            · exact le_rfl
          have hdrop :
              ((x :: xs).drop (splitEnd maxChars (x :: xs).length).toNat).length
                ≤ n := by
            rw [List.length_drop]
            have hlen : (x :: xs).length = xs.length + 1 := rfl
            have := h
            omega
          obtain ⟨cs, h1, h2, h3⟩ := ih _ hdrop
          refine ⟨(x :: xs).take (splitEnd maxChars (x :: xs).length).toNat :: cs,
            ?_, ?_, ?_⟩
          · show splitLoop maxChars (n + 1) (x :: xs) = _
            unfold splitLoop
            rw [h1]
          · simp only [List.flatten_cons, h2, List.take_append_drop]
          · intro c hc
            rcases List.mem_cons.mp hc with rfl | hc
            · have hlen : ((x :: xs).take
                  (splitEnd maxChars (x :: xs).length).toNat).length ≤
                    (splitEnd maxChars (x :: xs).length).toNat := by
                simp [List.length_take]
              have : ((splitEnd maxChars (x :: xs).length).toNat : Int) ≤
                  maxChars := by omega
              omega
            · exact h3 c hc

/-- In unbounded-blocking mode with an open channel, every chunk is
accepted in order. -/
theorem enqueueAll_unbounded (oracle : Bool) (chunks : List Str) :
    ∀ l : TencentCLSLogger, l.cfg.maxBufferSize ≤ 0 → l.buffer.closed = false →
      enqueueAll oracle l chunks =
        ({ l with buffer := { l.buffer with buf := l.buffer.buf ++ chunks } },
          .ok) := by
  induction chunks with
  | nil =>
      intro l h1 h2
      simp [enqueueAll]
  | cons x xs ih =>
      intro l h1 h2
      have hstep : enqueue oracle l x =
          ({ l with buffer := { l.buffer with buf := l.buffer.buf ++ [x] } },
            .ok) := by
        simp [enqueue, h1, h2]
      have hnext := ih
        { l with buffer := { l.buffer with buf := l.buffer.buf ++ [x] } } h1 h2
      simp only [enqueueAll, hstep, hnext]
      simp

/-- C5: with a bounded buffer of capacity 2 (installed by
`WithBufferCapacity 2`), a single producer enqueuing `"a"`, `"b"`, `"c"`
succeeds on all three calls and leaves exactly `["b", "c"]` in the buffer:
the third call evicts the oldest element and retries the insert once. -/
theorem C5_bounded_eviction :
    (enqueue false (WithBufferCapacity 2
        ⟨⟨false, 1000000, none⟩, 4096, ⟨[], 10000, false⟩, false, [],
          ⟨[.tag "log".toList], ⟨[], [], [], [], [], [], []⟩, []⟩⟩) ['a']).2
      = .ok ∧
    (enqueue false (enqueue false (WithBufferCapacity 2
        ⟨⟨false, 1000000, none⟩, 4096, ⟨[], 10000, false⟩, false, [],
          ⟨[.tag "log".toList], ⟨[], [], [], [], [], [], []⟩, []⟩⟩) ['a']).1
        ['b']).2 = .ok ∧
    (enqueue false (enqueue false (enqueue false (WithBufferCapacity 2
        ⟨⟨false, 1000000, none⟩, 4096, ⟨[], 10000, false⟩, false, [],
          ⟨[.tag "log".toList], ⟨[], [], [], [], [], [], []⟩, []⟩⟩) ['a']).1
        ['b']).1 ['c']).2 = .ok ∧
    (enqueue false (enqueue false (enqueue false (WithBufferCapacity 2
        ⟨⟨false, 1000000, none⟩, 4096, ⟨[], 10000, false⟩, false, [],
          ⟨[.tag "log".toList], ⟨[], [], [], [], [], [], []⟩, []⟩⟩) ['a']).1
        ['b']).1 ['c']).1.buffer.buf = [['b'], ['c']] :=
  ⟨rfl, rfl, rfl, rfl⟩

/-- C2 (counterexample): in unbounded-blocking mode (`MaxBufferSize <= 0`)
an enqueue after `Close` is the bare send `l.buffer <- log` on a closed
channel — a runtime panic, not the closed error the claim promises for
both modes. -/
theorem C2_counterexample_unbounded_panics :
    (enqueue false
        ⟨⟨false, 0, none⟩, 4096, ⟨[], 0, true⟩, true, [],
          ⟨[.tag "log".toList], ⟨[], [], [], [], [], [], []⟩, []⟩⟩ ['x']).2
      = .panicked ∧
    EnqueueResult.panicked ≠ EnqueueResult.errLoggerClosed :=
  ⟨rfl, by decide⟩

/-- C2 amended: after `Close`, a bounded-mode enqueue returns the closed
error when the select observes the closed signal and panics when it picks
the send on the closed buffer channel; an unbounded-mode enqueue always
panics on the closed buffer channel instead of returning the closed error;
and `Close` never discards buffered messages. -/
theorem C2_enqueue_after_close (l : TencentCLSLogger) (log : Str)
    (hclosed : l.buffer.closed = true) :
    (l.cfg.maxBufferSize ≤ 0 →
      ∀ oracle, enqueue oracle l log = (l, .panicked)) ∧
    (0 < l.cfg.maxBufferSize →
      enqueue false l log = (l, .errLoggerClosed) ∧
      enqueue true l log = (l, .panicked)) ∧
    (∀ (m m' : TencentCLSLogger), Close m = some m' →
      m'.buffer.buf = m.buffer.buf) := by
  refine ⟨?_, ?_, ?_⟩
  · intro h oracle
    simp [enqueue, h, hclosed]
  · intro h
    constructor
    · simp [enqueue, hclosed, not_le.mpr h]
    · simp [enqueue, hclosed, not_le.mpr h]
  · intro m m' hc
    by_cases hm : m.isClosed
    · simp only [Close, if_pos hm, Option.some.injEq] at hc
      rw [← hc]
    · simp only [Close, if_neg hm] at hc
      cases hs : chanCloseFlag m.closedSig with
      | none => rw [hs] at hc; cases hc
      | some c1 =>
          cases hb : chanCloseFlag m.buffer.closed with
          | none => rw [hs, hb] at hc; cases hc
          | some c2 =>
              rw [hs, hb] at hc
              simp only [Option.some.injEq] at hc
              rw [← hc]

/-- Witness for C2's amended statement at a concrete closed bounded
logger. -/
theorem C2_enqueue_after_close_witness :
    ((⟨⟨false, 1000000, none⟩, 4096, ⟨[['q']], 2, true⟩, true, [],
        ⟨[.tag "log".toList], ⟨[], [], [], [], [], [], []⟩, []⟩⟩ :
          TencentCLSLogger).cfg.maxBufferSize ≤ 0 →
      ∀ oracle, enqueue oracle
        ⟨⟨false, 1000000, none⟩, 4096, ⟨[['q']], 2, true⟩, true, [],
          ⟨[.tag "log".toList], ⟨[], [], [], [], [], [], []⟩, []⟩⟩ ['x'] =
        (⟨⟨false, 1000000, none⟩, 4096, ⟨[['q']], 2, true⟩, true, [],
          ⟨[.tag "log".toList], ⟨[], [], [], [], [], [], []⟩, []⟩⟩, .panicked)) ∧
    (0 < (⟨⟨false, 1000000, none⟩, 4096, ⟨[['q']], 2, true⟩, true, [],
        ⟨[.tag "log".toList], ⟨[], [], [], [], [], [], []⟩, []⟩⟩ :
          TencentCLSLogger).cfg.maxBufferSize →
      enqueue false
        ⟨⟨false, 1000000, none⟩, 4096, ⟨[['q']], 2, true⟩, true, [],
          ⟨[.tag "log".toList], ⟨[], [], [], [], [], [], []⟩, []⟩⟩ ['x'] =
        (⟨⟨false, 1000000, none⟩, 4096, ⟨[['q']], 2, true⟩, true, [],
          ⟨[.tag "log".toList], ⟨[], [], [], [], [], [], []⟩, []⟩⟩,
            .errLoggerClosed) ∧
      enqueue true
        ⟨⟨false, 1000000, none⟩, 4096, ⟨[['q']], 2, true⟩, true, [],
          ⟨[.tag "log".toList], ⟨[], [], [], [], [], [], []⟩, []⟩⟩ ['x'] =
        (⟨⟨false, 1000000, none⟩, 4096, ⟨[['q']], 2, true⟩, true, [],
          ⟨[.tag "log".toList], ⟨[], [], [], [], [], [], []⟩, []⟩⟩, .panicked)) ∧
    (∀ (m m' : TencentCLSLogger), Close m = some m' →
      m'.buffer.buf = m.buffer.buf) :=
  C2_enqueue_after_close
    ⟨⟨false, 1000000, none⟩, 4096, ⟨[['q']], 2, true⟩, true, [],
      ⟨[.tag "log".toList], ⟨[], [], [], [], [], [], []⟩, []⟩⟩ ['x'] rfl

/-- C8: on an open logger the first `Close` succeeds; a second `Close` is a
no-op success that closes neither channel again (no double-close panic, the
state is untouched); and `Log` on the closed logger returns the closed
error immediately with the whole state — reassembler map, buffer, formatter
— untouched. -/
theorem C8_close_idempotent (l : TencentCLSLogger)
    (h1 : l.closedSig = false) (h2 : l.buffer.closed = false) :
    ∃ l', Close l = some l' ∧
      Close l' = some l' ∧
      (∀ oracle msg, Log oracle l' msg = (l', .errLoggerClosed)) := by
  refine ⟨{ l with closedSig := true, buffer := { l.buffer with closed := true } }, ?_, ?_, ?_⟩
  · simp [Close, TencentCLSLogger.isClosed, h1, h2, chanCloseFlag]
  · simp [Close, TencentCLSLogger.isClosed]
  · intro oracle msg
    simp [Log, TencentCLSLogger.isClosed]

/-- Witness for C8 at a concrete open logger. -/
theorem C8_close_idempotent_witness :
    ∃ l', Close
        ⟨⟨true, 1000000, none⟩, 4096, ⟨[['m']], 3, false⟩, false, [],
          ⟨[.tag "log".toList], ⟨[], [], [], [], [], [], []⟩, []⟩⟩ = some l' ∧
      Close l' = some l' ∧
      (∀ oracle msg, Log oracle l' msg = (l', .errLoggerClosed)) :=
  C8_close_idempotent
    ⟨⟨true, 1000000, none⟩, 4096, ⟨[['m']], 3, false⟩, false, [],
      ⟨[.tag "log".toList], ⟨[], [], [], [], [], [], []⟩, []⟩⟩ rfl rfl

/-- C10: for a positive `maxLogMessageChars` the splitting loop of `Log`
terminates within fuel equal to the rune count, its chunks concatenate to
the original text with every chunk at most the bound long; and
`WithMaxLogMessageChars` installs its argument unconditionally — no
validation, so the termination guarantee rests on the caller supplying a
positive bound. -/
theorem C10_split_terminates_and_partitions :
    (∀ (maxChars : Int) (runes : Str), 1 ≤ maxChars →
      ∃ cs, splitLoop maxChars runes.length runes = some cs ∧
        cs.flatten = runes ∧ ∀ c ∈ cs, (c.length : Int) ≤ maxChars) ∧
    (∀ (maxLen : Int) (l : TencentCLSLogger),
      (WithMaxLogMessageChars maxLen l).maxLogMessageChars = maxLen) := by
  constructor
  · intro maxChars runes h
    exact splitLoop_spec maxChars h runes.length runes le_rfl
  · intro maxLen l
    rfl

/-- Witness for C10: the loop at bound 2 on `"abcde"`, and the option
installing the nonsensical bound `-7` without complaint. -/
theorem C10_split_terminates_witness :
    (∃ cs, splitLoop 2 ("abcde".toList.length) "abcde".toList = some cs ∧
      cs.flatten = "abcde".toList ∧ ∀ c ∈ cs, (c.length : Int) ≤ 2) ∧
    (WithMaxLogMessageChars (-7)
      ⟨⟨true, 1000000, none⟩, 4096, ⟨[], 10000, false⟩, false, [],
        ⟨[.tag "log".toList], ⟨[], [], [], [], [], [], []⟩, []⟩⟩
      ).maxLogMessageChars = -7 :=
  ⟨C10_split_terminates_and_partitions.1 2 "abcde".toList (by decide),
    C10_split_terminates_and_partitions.2 (-7)
      ⟨⟨true, 1000000, none⟩, 4096, ⟨[], 10000, false⟩, false, [],
        ⟨[.tag "log".toList], ⟨[], [], [], [], [], [], []⟩, []⟩⟩⟩

/-- C3 (counterexample): with batching enabled (`cfg.batchEnabled = true`)
and `maxLogMessageChars = 2`, `Log` on the record `"abc"` enqueues the two
chunks `"ab"`, `"c"` — the formatted message *is* pre-split before
enqueueing in batching mode, because `Log` never consults the batching
flag. -/
theorem C3_counterexample_batching_presplits :
    ((⟨⟨true, 1000000, none⟩, 2, ⟨[], 10000, false⟩, false, [],
        ⟨[.tag "log".toList], ⟨[], [], [], [], [], [], []⟩, []⟩⟩ :
          TencentCLSLogger).cfg.batchEnabled = true) ∧
    (Log false
        ⟨⟨true, 1000000, none⟩, 2, ⟨[], 10000, false⟩, false, [],
          ⟨[.tag "log".toList], ⟨[], [], [], [], [], [], []⟩, []⟩⟩
        ⟨"abc".toList, 0, none⟩).1.buffer.buf = [['a', 'b'], ['c']] ∧
    (Log false
        ⟨⟨true, 1000000, none⟩, 2, ⟨[], 10000, false⟩, false, [],
          ⟨[.tag "log".toList], ⟨[], [], [], [], [], [], []⟩, []⟩⟩
        ⟨"abc".toList, 0, none⟩).2 = .ok :=
  ⟨rfl, rfl, rfl⟩

/-- C3 amended: the maximum-message-length split is applied in *both*
modes — `Log` never reads `cfg.batchEnabled` — and in either mode a
formatted message is enqueued as successive chunks of at most
`maxLogMessageChars` Unicode scalars each, in order, concatenating back to
the formatted text. -/
theorem C3_split_in_both_modes (oracle : Bool) (l : TencentCLSLogger)
    (msg : Message) (text : Str)
    (hopen : l.closedSig = false) (hbopen : l.buffer.closed = false)
    (hunbounded : l.cfg.maxBufferSize ≤ 0)
    (hplain : msg.plogMetaData = none)
    (hfil : filterKeeps l.cfg.filterRegex msg.line = true)
    (hfmt : l.formatter.Format msg = .ok text)
    (hmax : 1 ≤ l.maxLogMessageChars) :
    ∃ pieces : List Str,
      (Log oracle l msg).1.buffer.buf = l.buffer.buf ++ pieces ∧
      (Log oracle l msg).2 = .ok ∧
      pieces.flatten = text ∧
      ∀ c ∈ pieces, (c.length : Int) ≤ l.maxLogMessageChars := by
  have hlog : Log oracle l msg = logRest oracle l msg := by
    simp [Log, TencentCLSLogger.isClosed, hopen, hplain]
  rw [hlog]
  unfold logRest
  rw [hfil, hfmt]
  simp only [Bool.true_eq_false, if_false]
  by_cases hlen : (text.length : Int) > l.maxLogMessageChars
  · rw [if_pos hlen]
    obtain ⟨cs, h1, h2, h3⟩ :=
      splitLoop_spec l.maxLogMessageChars hmax text.length text le_rfl
    rw [h1]
    simp only [enqueueAll_unbounded oracle cs l hunbounded hbopen]
    exact ⟨cs, rfl, rfl, h2, h3⟩
  · rw [if_neg hlen]
    have hstep : enqueue oracle l text =
        ({ l with buffer := { l.buffer with buf := l.buffer.buf ++ [text] } },
          .ok) := by
      simp [enqueue, hunbounded, hbopen]
    rw [hstep]
    refine ⟨[text], rfl, rfl, by simp, ?_⟩
    intro c hc
    rcases List.mem_singleton.mp hc with rfl
    omega

/-- Witness for C3's amended statement: unbounded open logger, template
`"\x7blog\x7d"`, bound 2, record `"abc"`. -/
theorem C3_split_in_both_modes_witness :
    ∃ pieces : List Str,
      (Log false
          ⟨⟨true, 0, none⟩, 2, ⟨[], 0, false⟩, false, [],
            ⟨[.tag "log".toList], ⟨[], [], [], [], [], [], []⟩, []⟩⟩
          ⟨"abc".toList, 0, none⟩).1.buffer.buf = [] ++ pieces ∧
      (Log false
          ⟨⟨true, 0, none⟩, 2, ⟨[], 0, false⟩, false, [],
            ⟨[.tag "log".toList], ⟨[], [], [], [], [], [], []⟩, []⟩⟩
          ⟨"abc".toList, 0, none⟩).2 = .ok ∧
      pieces.flatten = "abc".toList ∧
      ∀ c ∈ pieces, (c.length : Int) ≤ 2 :=
  C3_split_in_both_modes false
    ⟨⟨true, 0, none⟩, 2, ⟨[], 0, false⟩, false, [],
      ⟨[.tag "log".toList], ⟨[], [], [], [], [], [], []⟩, []⟩⟩
    ⟨"abc".toList, 0, none⟩ "abc".toList rfl rfl (by decide) rfl rfl rfl
    (by decide)

end TencentCLS
